import Mathlib

/-!
Verification of the Self_adaptive_agent core against its specification.

The development shallowly embeds the three core components of the repository:
the evolution pipeline (`backend/app/core/evolution_engine.py` together with
the state store of `backend/app/main.py`), the tool registry
(`backend/app/core/tool_manager.py`) and the memory store
(`backend/app/core/memory_manager.py`).

Modelling conventions:
* Python dicts are insertion-ordered association lists (`List (String × α)`);
  dict assignment replaces in place, `del` removes the first matching key.
* Python floats are embedded as rationals (`ℚ`): every operation the core
  performs on them (multiplication by a factor, `min`/`max` clamps, running
  averages) is exact at the granularity the claims speak about.
* `datetime.now()` and `random.uniform` are injected as explicit parameters
  (a clock tick `now : ℕ` and factor values), mirroring the spec demand
  that the factor source be an injectable strategy.
* Raising Python code is embedded with `Except`: an `Except.error` is a
  raised exception, whose constructor records the exception class.
-/

/-! ### Association-list primitives (Python `dict` semantics) -/

/-- Python dict assignment `d[k] = v`: replace in place if the key is present
(insertion order kept), otherwise append at the end. -/
def setA {α : Type} : List (String × α) → String → α → List (String × α)
  | [], k, v => [(k, v)]
  | (k', v') :: rest, k, v =>
    if k' = k then (k, v) :: rest else (k', v') :: setA rest k v

/-- Python `del d[k]`: drop the first pair with the given key. -/
def delA {α : Type} : List (String × α) → String → List (String × α)
  | [], _ => []
  | (k', v') :: rest, k => if k' = k then rest else (k', v') :: delA rest k

theorem lookup_cons_eq {α : Type} (k' m : String) (v' : α) (rest : List (String × α)) :
    List.lookup m ((k', v') :: rest) =
      if m = k' then some v' else List.lookup m rest := by
  by_cases hm : m = k'
  · have hb : (m == k') = true := by simp [hm]
    simp [List.lookup, hb, hm]
  · have hb : (m == k') = false := by simp [hm]
    simp [List.lookup, hb, hm]

theorem lookup_setA {α : Type} (l : List (String × α)) (k m : String) (v : α) :
    List.lookup m (setA l k v) = if m = k then some v else List.lookup m l := by
  induction l with
  | nil =>
    show List.lookup m [(k, v)] = _
    rw [lookup_cons_eq]
  | cons p rest ih =>
    obtain ⟨k', v'⟩ := p
    by_cases hk : k' = k
    · subst hk
      by_cases hm : m = k' <;> simp [setA, lookup_cons_eq, hm]
    · by_cases hm : m = k'
      · subst hm
        simp [setA, hk, lookup_cons_eq, Ne.symm hk]
      · simp [setA, hk, lookup_cons_eq, hm, ih]

theorem lookup_setA_self {α : Type} (l : List (String × α)) (k : String) (v : α) :
    List.lookup k (setA l k v) = some v := by
  simp [lookup_setA]

theorem lookup_delA_ne {α : Type} (l : List (String × α)) (k m : String) (h : m ≠ k) :
    List.lookup m (delA l k) = List.lookup m l := by
  induction l with
  | nil => simp [delA]
  | cons p rest ih =>
    obtain ⟨k', v'⟩ := p
    by_cases hk : k' = k
    · subst hk
      simp [delA, lookup_cons_eq, h]
    · by_cases hm : m = k' <;> simp [delA, hk, lookup_cons_eq, hm, ih]

theorem lookup_map_erase (l : List (String × List String)) (n m : String) :
    List.lookup m (l.map (fun p => (p.1, p.2.erase n))) =
      (List.lookup m l).map (fun x => x.erase n) := by
  induction l with
  | nil => simp [List.lookup]
  | cons p rest ih =>
    obtain ⟨k', v'⟩ := p
    by_cases hm : m = k' <;> simp [lookup_cons_eq, hm, ih]

/-! ### Character-list utilities shared by the embeddings

Python strings are manipulated through their character lists, so that the
splitting / joining / searching functions the source relies on can be given
direct recursive definitions. -/

/-- Python `str.lower()` (source strings are ASCII). -/
def lowerChars (l : List Char) : List Char := l.map Char.toLower

/-- Python substring test `needle in hay`. -/
def containsSub (hay needle : List Char) : Bool :=
  hay.tails.any (fun t => needle.isPrefixOf t)

/-- Python `<` on strings: lexicographic comparison by code point. -/
def charListLt : List Char → List Char → Bool
  | [], [] => false
  | [], _ :: _ => true
  | _ :: _, [] => false
  | a :: as, b :: bs =>
    if a.toNat < b.toNat then true
    else if b.toNat < a.toNat then false
    else charListLt as bs

/-- Python `<=` on strings. -/
def charListLe (a b : List Char) : Bool := charListLt a b || a == b

/-- the Python ASCII whitespace set (space, tab, newline, CR, VT, FF), as used
by `str.split()` and by `int()` surrounding-whitespace stripping. -/
def isPyWs (c : Char) : Bool :=
  decide (c.toNat = 32 ∨ c.toNat = 9 ∨ c.toNat = 10 ∨ c.toNat = 13 ∨
          c.toNat = 11 ∨ c.toNat = 12)

/-- ASCII decimal digit, the digit set `int()` accepts. -/
def isDig (c : Char) : Bool := decide (48 ≤ c.toNat ∧ c.toNat ≤ 57)

/-- Accumulator pass of Python `str.split()` (split on whitespace runs,
dropping empty pieces); `acc` holds the current word reversed. -/
def splitWsAux : List Char → List Char → List (List Char)
  | [], acc => if acc.isEmpty then [] else [acc.reverse]
  | c :: rest, acc =>
    if isPyWs c then
      if acc.isEmpty then splitWsAux rest [] else acc.reverse :: splitWsAux rest []
    else splitWsAux rest (c :: acc)

/-- Python `str.split()` with no argument. -/
def splitWs (l : List Char) : List (List Char) := splitWsAux l []

/-- Python `str.split('.')`: split on every dot, keeping empty pieces. -/
def splitOnDot : List Char → List (List Char)
  | [] => [[]]
  | c :: rest =>
    if c = '.' then [] :: splitOnDot rest
    else
      match splitOnDot rest with
      | [] => [[c]]
      | h :: t => (c :: h) :: t

/-- Python `'.'.join(parts)`. -/
def joinDot : List (List Char) → List Char
  | [] => []
  | [p] => p
  | p :: ps => p ++ '.' :: joinDot ps

theorem splitOnDot_ne_nil (l : List Char) : splitOnDot l ≠ [] := by
  cases l with
  | nil => simp [splitOnDot]
  | cons c rest =>
    by_cases h : c = '.'
    · simp [splitOnDot, h]
    · simp only [splitOnDot, h, if_false]
      cases splitOnDot rest <;> simp

theorem splitOnDot_no_dot (l : List Char) : ∀ p ∈ splitOnDot l, '.' ∉ p := by
  induction l with
  | nil => simp [splitOnDot]
  | cons c rest ih =>
    by_cases h : c = '.'
    · simpa [splitOnDot, h] using ih
    · simp only [splitOnDot, h, if_false]
      cases hs : splitOnDot rest with
      | nil => exact absurd hs (splitOnDot_ne_nil rest)
      | cons p t =>
        intro q hq
        rcases List.mem_cons.mp hq with rfl | hq
        · intro hc
          rcases List.mem_cons.mp hc with hc | hc
          · exact h hc.symm
          · exact ih p (by rw [hs]; exact List.mem_cons_self p t) hc
        · exact ih q (by rw [hs]; exact List.mem_cons_of_mem p hq)

theorem splitOnDot_no_dot_single (p : List Char) (h : '.' ∉ p) : splitOnDot p = [p] := by
  induction p with
  | nil => simp [splitOnDot]
  | cons c rest ih =>
    have hc : c ≠ '.' := fun hc => h (hc ▸ List.mem_cons_self c rest)
    have hr : '.' ∉ rest := fun hr => h (List.mem_cons_of_mem c hr)
    simp [splitOnDot, hc, ih hr]

theorem splitOnDot_append (p s : List Char) (h : '.' ∉ p) :
    splitOnDot (p ++ s) = (p ++ (splitOnDot s).headD []) :: (splitOnDot s).tail := by
  induction p with
  | nil =>
    simp only [List.nil_append]
    cases hs : splitOnDot s with
    | nil => exact absurd hs (splitOnDot_ne_nil s)
    | cons a t => simp
  | cons c rest ih =>
    have hc : c ≠ '.' := fun hx => h (hx ▸ List.mem_cons_self c rest)
    have hr : '.' ∉ rest := fun hx => h (List.mem_cons_of_mem c hx)
    have heq := ih hr
    show splitOnDot (c :: (rest ++ s)) = _
    rw [splitOnDot, if_neg hc, heq]
    simp

theorem splitOnDot_joinDot :
    ∀ ps : List (List Char), ps ≠ [] → (∀ p ∈ ps, '.' ∉ p) →
      splitOnDot (joinDot ps) = ps := by
  intro ps
  induction ps with
  | nil => intro h; exact absurd rfl h
  | cons p t ih =>
    intro _ hnd
    cases t with
    | nil =>
      simp only [joinDot]
      exact splitOnDot_no_dot_single p (hnd p (List.mem_cons_self p []))
    | cons q u =>
      have hjoin : joinDot (p :: q :: u) = p ++ '.' :: joinDot (q :: u) := rfl
      rw [hjoin, splitOnDot_append p _ (hnd p (List.mem_cons_self p _))]
      have hrest : splitOnDot ('.' :: joinDot (q :: u)) = [] :: splitOnDot (joinDot (q :: u)) := by
        simp [splitOnDot]
      rw [hrest]
      have := ih (by simp) (fun r hr => hnd r (List.mem_cons_of_mem p hr))
      simp [this]

/-! ### Python integer parsing and decimal rendering

`int(s)` accepts surrounding whitespace, an optional sign, and decimal digits
with single underscores between digits; `str(n)` renders in decimal.
(Only the decimal grammar is modelled; other bases never reach `int()` here.) -/

/-- Strip leading and trailing whitespace (Python `int()` ignores both). -/
def stripWs (l : List Char) : List Char :=
  ((l.dropWhile isPyWs).reverse.dropWhile isPyWs).reverse

/-- Digit run with single underscores allowed between digits, accumulating the
decimal value. -/
def digitsCore (acc : ℕ) : List Char → Option ℕ
  | [] => some acc
  | c :: rest =>
    if isDig c then digitsCore (10 * acc + (c.toNat - 48)) rest
    else if c = '_' then
      match rest with
      | [] => none
      | d :: rest₂ =>
        if isDig d then digitsCore (10 * acc + (d.toNat - 48)) rest₂ else none
    else none

/-- Nonempty digit run (underscored) starting with a digit. -/
def parseDigitsU : List Char → Option ℕ
  | [] => none
  | c :: rest => if isDig c then digitsCore (c.toNat - 48) rest else none

/-- Python `int(s)` on the decimal grammar: `none` is a raised `ValueError`. -/
def pyParseInt (l : List Char) : Option Int :=
  match stripWs l with
  | [] => none
  | c :: rest =>
    if c = '+' then (parseDigitsU rest).map Int.ofNat
    else if c = '-' then (parseDigitsU rest).map (fun n => -(n : Int))
    else (parseDigitsU (c :: rest)).map Int.ofNat

/-- Value of a big-endian decimal digit string (how a well-formed version
component reads as a number). -/
def digitsToNat (l : List Char) : ℕ :=
  l.foldl (fun a c => 10 * a + (c.toNat - 48)) 0

/-- Decimal digits of `n`, most significant first, with structural fuel
(`fuel ≥ n` suffices) so that the definition computes by kernel reduction. -/
def natDigitsAux : ℕ → ℕ → List Char
  | 0, _ => []
  | fuel + 1, n =>
    if n = 0 then [] else natDigitsAux fuel (n / 10) ++ [Nat.digitChar (n % 10)]

/-- Python `str(n)` for a natural number. -/
def natRender (n : ℕ) : List Char :=
  if n = 0 then ['0'] else natDigitsAux (n + 1) n

/-- Python `str(i)` for an integer. -/
def intRender (i : Int) : List Char :=
  if i < 0 then '-' :: natRender i.natAbs else natRender i.toNat

theorem dropWhile_eq_self_of_all {p : Char → Bool} :
    ∀ l : List Char, (∀ c ∈ l, p c = false) → l.dropWhile p = l
  | [], _ => rfl
  | c :: rest, h => by
    simp [List.dropWhile, h c (List.mem_cons_self c rest)]

theorem isPyWs_eq_false_of_dig (c : Char) (h : isDig c = true) : isPyWs c = false := by
  simp only [isDig, decide_eq_true_eq] at h
  simp only [isPyWs, decide_eq_false_iff_not]
  omega

theorem stripWs_of_digits (l : List Char) (hd : ∀ c ∈ l, isDig c = true) :
    stripWs l = l := by
  have hws : ∀ c ∈ l, isPyWs c = false := fun c hc => isPyWs_eq_false_of_dig c (hd c hc)
  have h1 : l.dropWhile isPyWs = l := dropWhile_eq_self_of_all l hws
  have h2 : l.reverse.dropWhile isPyWs = l.reverse :=
    dropWhile_eq_self_of_all _ (fun c hc => hws c (by simpa using hc))
  unfold stripWs
  rw [h1, h2, List.reverse_reverse]

theorem digitsCore_all_digits (l : List Char) :
    ∀ acc : ℕ, (∀ c ∈ l, isDig c = true) →
      digitsCore acc l = some (l.foldl (fun a c => 10 * a + (c.toNat - 48)) acc) := by
  induction l with
  | nil => intro acc _; simp [digitsCore]
  | cons c rest ih =>
    intro acc hd
    have hc : isDig c = true := hd c (List.mem_cons_self c rest)
    have hr : ∀ x ∈ rest, isDig x = true := fun x hx => hd x (List.mem_cons_of_mem c hx)
    have hstep : digitsCore acc (c :: rest) = digitsCore (10 * acc + (c.toNat - 48)) rest := by
      rw [digitsCore.eq_def]
      simp [hc]
    rw [hstep, ih _ hr]
    simp

theorem pyParseInt_digits (l : List Char) (hne : l ≠ [])
    (hd : ∀ c ∈ l, isDig c = true) : pyParseInt l = some ((digitsToNat l : ℤ)) := by
  rw [pyParseInt, stripWs_of_digits l hd]
  cases l with
  | nil => exact absurd rfl hne
  | cons c rest =>
    have hc : isDig c = true := hd c (List.mem_cons_self c rest)
    have hplus : c ≠ '+' := by
      intro h; rw [h] at hc; simp [isDig] at hc
    have hminus : c ≠ '-' := by
      intro h; rw [h] at hc; simp [isDig] at hc
    have hr : ∀ x ∈ rest, isDig x = true := fun x hx => hd x (List.mem_cons_of_mem c hx)
    simp only [hplus, hminus, if_false]
    rw [parseDigitsU, if_pos hc, digitsCore_all_digits rest _ hr]
    simp [digitsToNat, Int.ofNat_eq_natCast]

/-! ### Evolution engine (`backend/app/core/evolution_engine.py`)

The four stage agents (`AnalyzerAgent`, `ResearcherAgent`, `CoderAgent`,
`PlayerAgent`) are external collaborators of the engine: the engine only
forwards their opaque payloads and reads the fields named below.  They are
injected as functions returning `Except` (an `Except.error` is a stage
raising an infrastructure fault); their report types are opaque parameters
`α` (analysis) and `β` (research).  `random.uniform(1.05, 1.15)` /
`random.uniform(0.95, 0.98)` are injected as the factor fields. -/

/-- Source `app.models.agent.EvolutionTrigger`. -/
inductive EvolutionTrigger : Type
  | performance_threshold
  | task_failure
  | user_feedback
  | scheduled
deriving DecidableEq, Repr

/-- The `.value` of the trigger enum (its string payload). -/
def EvolutionTrigger.value : EvolutionTrigger → String
  | .performance_threshold => "performance_threshold"
  | .task_failure => "task_failure"
  | .user_feedback => "user_feedback"
  | .scheduled => "scheduled"

/-- The modification dict produced by the Generate stage; the engine reads
only the keys `new_capabilities`, `memory_size` and `tool_count` (each
`Option` is `dict.get` presence). -/
structure Modifications : Type where
  new_capabilities : Option (List String) := Option.none
  memory_size : Option Int := Option.none
  tool_count : Option Int := Option.none
deriving DecidableEq, Repr

/-- The test-result dict produced by the Test stage; the engine reads only
`test_results.get("success", False)`. -/
structure TestResults : Type where
  success : Bool
deriving DecidableEq, Repr

/-- Source `app.models.agent.EvolutionEvent`. -/
structure EvolutionEvent : Type where
  timestamp : ℕ
  trigger : EvolutionTrigger
  changes : Modifications
  performance_before : List (String × ℚ)
  performance_after : List (String × ℚ)
  success : Bool
  notes : String
deriving DecidableEq, Repr

/-- Source `app.models.agent.AgentState`. -/
structure AgentState : Type where
  agent_id : String
  name : String
  version : String
  capabilities : List String
  performance_metrics : List (String × ℚ)
  evolution_history : List EvolutionEvent
  created_at : ℕ
  last_evolution : ℕ
  active : Bool := true
  memory_size : Int := 1000
  tool_count : Int := 0
deriving DecidableEq, Repr

/-- Source `app.models.agent.EvolutionRequest` (only the field the engine reads). -/
structure EvolutionRequest : Type where
  trigger : EvolutionTrigger
deriving DecidableEq, Repr

/-- The engine with its four injected stage collaborators and injected
randomness/clock (`α`, `β` are the opaque analysis/research payloads). -/
structure EvolutionEngine (α β : Type) : Type where
  analyzer : AgentState → Except String α
  researcher : AgentState → α → Except String β
  coder : AgentState → β → Except String Modifications
  player : AgentState → Modifications → Except String TestResults
  improvement_factor : ℚ
  degradation_factor : ℚ
  now : ℕ

/-- Source `EvolutionEngine._calculate_new_metrics`: multiply every metric by the
drawn factor, clamping at 1.0 on success and flooring at 0.0 on failure. -/
def calculate_new_metrics (old_metrics : List (String × ℚ)) (test_results : TestResults)
    (improvement_factor degradation_factor : ℚ) : List (String × ℚ) :=
  if test_results.success then
    old_metrics.map (fun p => (p.1, min 1 (p.2 * improvement_factor)))
  else
    old_metrics.map (fun p => (p.1, max 0 (p.2 * degradation_factor)))

/-- Source `EvolutionEngine._increment_version`: split on `.`, parse the last
component with `int()`, increment, rejoin; any parse failure falls back to
the fixed string `"1.0.1"`. -/
def increment_version (current_version : String) : String :=
  match pyParseInt ((splitOnDot current_version.data).getLastD []) with
  | Option.none => "1.0.1"
  | some n =>
    String.mk (joinDot ((splitOnDot current_version.data).dropLast ++ [intRender (n + 1)]))

/-- Source `EvolutionEngine._update_capabilities`: append each new capability not
already present, in order. -/
def update_capabilities (current_capabilities : List String)
    (modifications : Modifications) : List String :=
  match modifications.new_capabilities with
  | Option.none => current_capabilities
  | some caps =>
    caps.foldl (fun acc c => if c ∈ acc then acc else acc ++ [c]) current_capabilities

/-- Source `EvolutionEngine._apply_evolution`: build the `EvolutionEvent` and the
replacement `AgentState` (pure given the injected factors and clock). -/
def apply_evolution (agent : AgentState) (modifications : Modifications)
    (test_results : TestResults) (request : EvolutionRequest)
    (improvement_factor degradation_factor : ℚ) (now : ℕ) : AgentState :=
  let performance_before := agent.performance_metrics
  let performance_after :=
    calculate_new_metrics performance_before test_results improvement_factor degradation_factor
  let evolution_event : EvolutionEvent :=
    { timestamp := now
      trigger := request.trigger
      changes := modifications
      performance_before := performance_before
      performance_after := performance_after
      success := test_results.success
      notes := "Evolution triggered by " ++ request.trigger.value }
  { agent_id := agent.agent_id
    name := agent.name
    version := increment_version agent.version
    capabilities := update_capabilities agent.capabilities modifications
    performance_metrics := performance_after
    evolution_history := agent.evolution_history ++ [evolution_event]
    created_at := agent.created_at
    last_evolution := now
    active := agent.active
    memory_size := modifications.memory_size.getD agent.memory_size
    tool_count := modifications.tool_count.getD agent.tool_count }

/-- Source `EvolutionEngine.evolve_agent`: run the four stages in sequence (a stage
raising aborts the chain, propagating its error unchanged) and apply the
evolution. -/
def evolve_agent {α β : Type} (eng : EvolutionEngine α β) (agent : AgentState)
    (request : EvolutionRequest) : Except String AgentState :=
  match eng.analyzer agent with
  | Except.error e => Except.error e
  | Except.ok analysis =>
    match eng.researcher agent analysis with
    | Except.error e => Except.error e
    | Except.ok research_results =>
      match eng.coder agent research_results with
      | Except.error e => Except.error e
      | Except.ok modifications =>
        match eng.player agent modifications with
        | Except.error e => Except.error e
        | Except.ok test_results =>
          Except.ok (apply_evolution agent modifications test_results request
            eng.improvement_factor eng.degradation_factor eng.now)

/-- The agent-state store of `backend/app/main.py` (`agent_states`). -/
def AgentStore : Type := String → Option AgentState

/-- Write one agent state into the store (`agent_states[agent_id] = ...`). -/
def storeWrite (store : AgentStore) (agent_id : String) (s : AgentState) : AgentStore :=
  fun a => if a = agent_id then some s else store a

/-- Source `main.perform_evolution`: the background task reads the current state,
runs `evolve_agent`, and writes the result back; any raised exception is
caught and logged, leaving the store untouched (a missing id raises
`KeyError`, likewise caught). -/
def perform_evolution {α β : Type} (eng : EvolutionEngine α β) (store : AgentStore)
    (agent_id : String) (request : EvolutionRequest) : AgentStore :=
  match store agent_id with
  | Option.none => store
  | some agent =>
    match evolve_agent eng agent request with
    | Except.error _ => store
    | Except.ok evolved => storeWrite store agent_id evolved

/-- Two concurrent `perform_evolution` tasks for the same agent under the
read-read-write-write interleaving that the source permits (it acquires no
lock around the read-modify-write cycle): both tasks read the same stored
state before either writes. -/
def race_two_evolutions {α β : Type} (eng : EvolutionEngine α β) (store : AgentStore)
    (agent_id : String) (request₁ request₂ : EvolutionRequest) : AgentStore :=
  match store agent_id with
  | Option.none => store
  | some agent =>
    let after_first : AgentStore :=
      match evolve_agent eng agent request₁ with
      | Except.error _ => store
      | Except.ok evolved => storeWrite store agent_id evolved
    match evolve_agent eng agent request₂ with
    | Except.error _ => after_first
    | Except.ok evolved => storeWrite after_first agent_id evolved

/-- The spec dot-integer ordering on well-formed versions: lexicographic
on the numeric values of the dot-separated components. -/
def verDotLt (a b : String) : Prop :=
  List.Lex (· < ·) ((splitOnDot a.data).map digitsToNat) ((splitOnDot b.data).map digitsToNat)

/-- Well-formed version string: every dot-separated component is a nonempty
run of decimal digits. -/
def wellFormedVersion (v : String) : Prop :=
  ∀ p ∈ splitOnDot v.data, p ≠ [] ∧ ∀ c ∈ p, isDig c = true

/-! ### JSON values and `json.dumps` (`backend/app/core/memory_manager.py`)

Memory payloads are Python dicts; `json.dumps` with the default separators
(`", "` / `": "`) and `ensure_ascii=True` escaping is embedded below, both in
insertion order (used by the search path) and with `sort_keys=True` (used by
the content address). -/

/-- A JSON-serializable Python value. -/
inductive JValue : Type
  | jnull
  | jbool (b : Bool)
  | jint (n : Int)
  | jfloat (q : ℚ)
  | jstr (s : String)
  | jarr (items : List JValue)
  | jobj (fields : List (String × JValue))

/-- Four lowercase hex digits (for `\uXXXX` escapes). -/
def hex4 (n : ℕ) : List Char :=
  [Nat.digitChar (n / 4096 % 16), Nat.digitChar (n / 256 % 16),
   Nat.digitChar (n / 16 % 16), Nat.digitChar (n % 16)]

/-- Source `json.dumps` escaping of one character inside a string literal
(`ensure_ascii=True`; astral characters would use surrogate pairs, which the
source data never contains). -/
def escapeChar (c : Char) : List Char :=
  if c = '"' then ['\\', '"']
  else if c = '\\' then ['\\', '\\']
  else if c = '\n' then ['\\', 'n']
  else if c = '\t' then ['\\', 't']
  else if c = '\r' then ['\\', 'r']
  else if c.toNat = 8 then ['\\', 'b']
  else if c.toNat = 12 then ['\\', 'f']
  else if c.toNat < 32 ∨ 126 < c.toNat then '\\' :: 'u' :: hex4 c.toNat
  else [c]

/-- A JSON string literal with its quotes. -/
def escapeStr (s : String) : List Char :=
  '"' :: (s.data.map escapeChar).flatten ++ ['"']

/-- Smallest power of ten clearing the denominator (floats have one). -/
def pow10Exp (q : ℚ) : Option ℕ :=
  (List.range 60).find? (fun k => (q * (10 : ℚ) ^ k).den = 1)

/-- Source `repr` of a Python float with a finite decimal expansion, as `json.dumps`
prints it (`0.5`, `1.0`, `-2.25`, ...). -/
def qRender (q : ℚ) : List Char :=
  if q.den = 1 then intRender q.num ++ ['.', '0']
  else
    match pow10Exp q with
    | some k =>
      let mag := ((q * (10 : ℚ) ^ k).num).natAbs
      let ds := natRender mag
      let ds := if ds.length < k + 1 then List.replicate (k + 1 - ds.length) '0' ++ ds else ds
      let sign : List Char := if q < 0 then ['-'] else []
      sign ++ ds.take (ds.length - k) ++ '.' :: ds.drop (ds.length - k)
    | Option.none => intRender q.num ++ '/' :: natRender q.den

mutual

/-- Source `json.dumps` with default separators, insertion-ordered keys. -/
def dumpsVal : JValue → List Char
  | .jnull => ['n', 'u', 'l', 'l']
  | .jbool true => ['t', 'r', 'u', 'e']
  | .jbool false => ['f', 'a', 'l', 's', 'e']
  | .jint n => intRender n
  | .jfloat q => qRender q
  | .jstr s => escapeStr s
  | .jarr items => '[' :: dumpsArr items ++ [']']
  | .jobj fields => '{' :: dumpsObj fields ++ ['}']

def dumpsArr : List JValue → List Char
  | [] => []
  | [v] => dumpsVal v
  | v :: rest => dumpsVal v ++ ',' :: ' ' :: dumpsArr rest

def dumpsObj : List (String × JValue) → List Char
  | [] => []
  | [(k, v)] => escapeStr k ++ ':' :: ' ' :: dumpsVal v
  | (k, v) :: rest => (escapeStr k ++ ':' :: ' ' :: dumpsVal v) ++ ',' :: ' ' :: dumpsObj rest

end

mutual

/-- Recursively sort object keys (the effect of `sort_keys=True`). -/
def canonVal : JValue → JValue
  | .jnull => .jnull
  | .jbool b => .jbool b
  | .jint n => .jint n
  | .jfloat q => .jfloat q
  | .jstr s => .jstr s
  | .jarr items => .jarr (canonArr items)
  | .jobj fields =>
    .jobj (List.insertionSort (fun a b => charListLe a.1.data b.1.data = true) (canonObj fields))

def canonArr : List JValue → List JValue
  | [] => []
  | v :: rest => canonVal v :: canonArr rest

def canonObj : List (String × JValue) → List (String × JValue)
  | [] => []
  | (k, v) :: rest => (k, canonVal v) :: canonObj rest

end

/-- Source `json.dumps(data)` (insertion order, as the search path serializes). -/
def dumps (v : JValue) : List Char := dumpsVal v

/-- Source `json.dumps(data, sort_keys=True)` (the canonical serialization behind
the content address). -/
def dumpsSorted (v : JValue) : List Char := dumpsVal (canonVal v)

/-! ### Memory manager (`MemoryManager`) -/

/-- A stored memory entry (the dict built by `store_memory`). -/
structure MemoryEntry : Type where
  id : String
  data : JValue
  timestamp : ℕ
  access_count : ℕ
  importance : ℚ

/-- Source `MemoryManager._generate_memory_id`: the content address is the
canonical (key-sorted) serialization of the payload; the source feeds it
through `md5(...)[:8]`, a deterministic injection-up-to-hash-collision that
is abstracted away here (no claim depends on hash collisions). -/
def generate_memory_id (memory_data : JValue) : String :=
  String.mk (dumpsSorted memory_data)

/-- The default importance 0.5 in normalized form (a `Rat` structure
literal, so that it computes by kernel reduction). -/
def half : ℚ := ⟨1, 2, by decide, by decide⟩

theorem half_eq : half = 1 / 2 := by
  rw [← Rat.num_div_den half]
  norm_num [half]

/-- Source `memory_data.get("importance", 0.5)`.  Numeric values are taken exactly;
a non-numeric value would make the source eviction sort raise and is out
of the modelled scope, defaulting here. -/
def getImportance (memory_data : JValue) : ℚ :=
  match memory_data with
  | .jobj fields =>
    match List.lookup "importance" fields with
    | some (.jfloat q) => q
    | some (.jint n) => (n : ℚ)
    | _ => half
  | _ => half

/-- The memory-entry dict stored by `store_memory`. -/
def mkMemoryEntry (memory_data : JValue) (now : ℕ) : MemoryEntry :=
  { id := generate_memory_id memory_data
    data := memory_data
    timestamp := now
    access_count := 0
    importance := getImportance memory_data }

/-- Source `MemoryManager` state (only the fields the claims touch: the per-agent
entry dicts and the capacity limit). -/
structure MemoryManager : Type where
  memory_store : List (String × List (String × MemoryEntry)) := []
  memory_limit : ℕ := 10000

/-- The ordering `sorted(..., key=lambda x: (importance, access_count),
reverse=True)` leaves the entries in: descending lexicographic on the
`(importance, access_count)` pair. -/
def entryGE (a b : String × MemoryEntry) : Prop :=
  b.2.importance < a.2.importance ∨
    (a.2.importance = b.2.importance ∧ b.2.access_count ≤ a.2.access_count)

instance : DecidableRel entryGE := fun a b => by unfold entryGE; infer_instance

instance : IsTotal (String × MemoryEntry) entryGE where
  total a b := by
    unfold entryGE
    rcases lt_trichotomy a.2.importance b.2.importance with h | h | h
    · right; left; exact h
    · rcases le_total b.2.access_count a.2.access_count with h' | h'
      · left; right; exact ⟨h, h'⟩
      · right; right; exact ⟨h.symm, h'⟩
    · left; left; exact h

instance : IsTrans (String × MemoryEntry) entryGE where
  trans a b c hab hbc := by
    unfold entryGE at *
    rcases hab with h₁ | ⟨h₁, h₁'⟩ <;> rcases hbc with h₂ | ⟨h₂, h₂'⟩
    · left; exact h₂.trans h₁
    · left; exact h₂ ▸ h₁
    · left; exact h₁ ▸ h₂
    · right; exact ⟨h₁.trans h₂, h₂'.trans h₁'⟩

/-- Source `MemoryManager._cleanup_memory`: when the agent entry count exceeds
the limit, keep the `memory_limit` entries with the highest
`(importance, access_count)` pairs (stable descending sort, then truncate). -/
def cleanup_memory (mm : MemoryManager) (agent_id : String) : MemoryManager :=
  match List.lookup agent_id mm.memory_store with
  | Option.none => mm
  | some memories =>
    if memories.length ≤ mm.memory_limit then mm
    else
      let sorted_memories := List.insertionSort entryGE memories
      { mm with
        memory_store := setA mm.memory_store agent_id (sorted_memories.take mm.memory_limit) }

/-- Source `MemoryManager.store_memory`: insert the entry under its content address
(creating the agent dict if needed), then enforce the capacity limit. -/
def store_memory (mm : MemoryManager) (agent_id : String) (memory_data : JValue)
    (now : ℕ) : MemoryManager × String :=
  let memory_id := generate_memory_id memory_data
  let base := (List.lookup agent_id mm.memory_store).getD []
  let entry := mkMemoryEntry memory_data now
  let mm₁ := { mm with memory_store := setA mm.memory_store agent_id (setA base memory_id entry) }
  (cleanup_memory mm₁ agent_id, memory_id)

/-- Source `MemoryManager._matches_query`: the whole lowercased query must occur as
a contiguous substring of the lowercased serialized payload. -/
def matches_query (memory_data : JValue) (query : String) : Bool :=
  containsSub (lowerChars (dumps memory_data)) (lowerChars query.data)

/-- Source `MemoryManager._calculate_relevance`: fraction of the query
whitespace-separated terms that occur in the serialized payload. -/
def calculate_relevance (memory_data : JValue) (query : String) : ℚ :=
  let query_terms := splitWs (lowerChars query.data)
  let data_string := lowerChars (dumps memory_data)
  let nfound := (query_terms.filter (fun t => containsSub data_string t)).length
  if query_terms.isEmpty then 0 else (nfound : ℚ) / (query_terms.length : ℚ)

/-- A search hit as `search_memories` returns it. -/
structure SearchResult : Type where
  id : String
  data : JValue
  relevance : ℚ
  timestamp : ℕ

/-- Descending relevance, the order `results.sort(key=..., reverse=True)`
produces. -/
def relGE (a b : SearchResult) : Prop := b.relevance ≤ a.relevance

instance : DecidableRel relGE := fun a b => by unfold relGE; infer_instance

instance : IsTotal SearchResult relGE where
  total a b := le_total b.relevance a.relevance

instance : IsTrans SearchResult relGE where
  trans _ _ _ hab hbc := le_trans hbc hab

/-- Source `MemoryManager.search_memories`: collect entries matching the query (in
insertion order), score them, sort by descending relevance, truncate. -/
def search_memories (mm : MemoryManager) (agent_id : String) (query : String)
    (limit : ℕ) : List SearchResult :=
  match List.lookup agent_id mm.memory_store with
  | Option.none => []
  | some memories =>
    let results := (memories.filter (fun p => matches_query p.2.data query)).map
      (fun p =>
        { id := p.1
          data := p.2.data
          relevance := calculate_relevance p.2.data query
          timestamp := p.2.timestamp })
    (List.insertionSort relGE results).take limit

/-! ### Tool manager (`backend/app/core/tool_manager.py`)

Parameter values are dynamically-typed Python objects (`PValue`); the tool's
wrapped callable is injected as a function returning `Except` (an
`Except.error` is the callable raising). -/

/-- Exception classes the tool path raises. -/
inductive PyErr : Type
  | valueError (msg : String)
  | typeError (msg : String)
  | permissionError (msg : String)
deriving DecidableEq, Repr

/-- A Python value as passed in tool kwargs. -/
inductive PValue : Type
  | pint (n : Int)
  | pfloat (q : ℚ)
  | pbool (b : Bool)
  | pstr (s : String)
  | plist (items : List PValue)
  | pdict (fields : List (String × PValue))
  | pnone

/-- The primitive type objects used in parameter schemas. -/
inductive PyType : Type
  | int
  | float
  | bool
  | str
  | list
  | dict
deriving DecidableEq, Repr

/-- Python `isinstance(value, expected_type)` (`bool` is a subclass of
`int`, so a bool passes an `int` check). -/
def isinst : PValue → PyType → Bool
  | .pint _, .int => true
  | .pbool _, .int => true
  | .pfloat _, .float => true
  | .pbool _, .bool => true
  | .pstr _, .str => true
  | .plist _, .list => true
  | .pdict _, .dict => true
  | _, _ => false

/-- Python truthiness, `bool(value)` (never raises). -/
def pyTruthy : PValue → Bool
  | .pbool b => b
  | .pint n => n ≠ 0
  | .pfloat q => q ≠ 0
  | .pstr s => !(s == "")
  | .plist items => !items.isEmpty
  | .pdict fields => !fields.isEmpty
  | .pnone => false

/-- Numeric reading of a value (`bool` counts as 0/1), used by the Python
cross-type numeric comparison and equality. -/
def pvAsNum : PValue → Option ℚ
  | .pint n => some (n : ℚ)
  | .pfloat q => some q
  | .pbool b => some (if b then 1 else 0)
  | _ => Option.none

/-- Python `int(value)`: `none` is a raised `ValueError`/`TypeError`
(floats truncate toward zero, strings go through the `int()` grammar). -/
def pyIntOf : PValue → Option Int
  | .pint n => some n
  | .pbool b => some (if b then 1 else 0)
  | .pfloat q => some (if q < 0 then ⌈q⌉ else ⌊q⌋)
  | .pstr s => pyParseInt s.data
  | _ => Option.none

/-- The decimal part of the Python `float(str)` grammar: optional sign, digits
with an optional decimal point (exponents, `inf`/`nan` and underscores are
not modelled; nothing in the repository feeds them to a float parameter). -/
def pyParseFloat (l : List Char) : Option ℚ :=
  let core : List Char → Option ℚ := fun s =>
    match s.findIdx? (fun c => c = '.') with
    | Option.none =>
      if s ≠ [] ∧ s.all isDig then some ((digitsToNat s : ℚ)) else Option.none
    | some i =>
      let ip := s.take i
      let fp := s.drop (i + 1)
      if (ip ≠ [] ∨ fp ≠ []) ∧ ip.all isDig ∧ fp.all isDig then
        some ((digitsToNat ip : ℚ) + (digitsToNat fp : ℚ) / (10 : ℚ) ^ fp.length)
      else Option.none
  match stripWs l with
  | [] => Option.none
  | c :: rest =>
    if c = '+' then core rest
    else if c = '-' then (core rest).map Neg.neg
    else core (c :: rest)

/-- Python `float(value)`: `none` is a raised `ValueError`/`TypeError`. -/
def pyFloatOf : PValue → Option ℚ
  | .pfloat q => some q
  | .pint n => some (n : ℚ)
  | .pbool b => some (if b then 1 else 0)
  | .pstr s => pyParseFloat s.data
  | _ => Option.none

/-- The coercion attempt of `Tool._validate_parameters` when `isinstance`
fails: `int`/`float`/`bool` expected types coerce (possibly raising, which
is `none`); other expected types have no coercion branch in the source, so
the value passes through unchanged. -/
def coerceTo (t : PyType) (v : PValue) : Option PValue :=
  match t with
  | .int => (pyIntOf v).map PValue.pint
  | .float => (pyFloatOf v).map PValue.pfloat
  | .bool => some (PValue.pbool (pyTruthy v))
  | _ => some v

mutual

/-- Python `repr(value)` as interpolated into error messages (float repr is
the finite-decimal rendering above). -/
def pvRepr : PValue → List Char
  | .pint n => intRender n
  | .pfloat q => qRender q
  | .pbool true => ['T', 'r', 'u', 'e']
  | .pbool false => ['F', 'a', 'l', 's', 'e']
  | .pstr s => Char.ofNat 39 :: s.data ++ [Char.ofNat 39]
  | .pnone => ['N', 'o', 'n', 'e']
  | .plist items => '[' :: pvReprList items ++ [']']
  | .pdict fields => '{' :: pvReprDict fields ++ ['}']

def pvReprList : List PValue → List Char
  | [] => []
  | [v] => pvRepr v
  | v :: rest => pvRepr v ++ ',' :: ' ' :: pvReprList rest

def pvReprDict : List (String × PValue) → List Char
  | [] => []
  | [(k, v)] => (Char.ofNat 39 :: k.data ++ [Char.ofNat 39]) ++ ':' :: ' ' :: pvRepr v
  | (k, v) :: rest =>
    ((Char.ofNat 39 :: k.data ++ [Char.ofNat 39]) ++ ':' :: ' ' :: pvRepr v) ++
      ',' :: ' ' :: pvReprDict rest

end

/-- Python `str(value)` (f-string interpolation: strings verbatim, other
values via repr). -/
def pvStr : PValue → String
  | .pstr s => s
  | v => String.mk (pvRepr v)

/-- Python `value < other` for the types a schema constraint can compare:
numerics cross-compare, strings compare lexicographically, anything else is
a raised `TypeError` (`none`). -/
def pyLt (a b : PValue) : Option Bool :=
  match pvAsNum a, pvAsNum b with
  | some x, some y => some (decide (x < y))
  | _, _ =>
    match a, b with
    | .pstr s, .pstr t => some (charListLt s.data t.data)
    | _, _ => Option.none

mutual

/-- Python `value == other` (numeric family cross-equal, e.g. `1 == 1.0`
and `True == 1`; container equality is element-wise — the source dict
equality is order-insensitive, but no schema constraint compares dicts). -/
def pvEq : PValue → PValue → Bool
  | .pstr s, .pstr t => s == t
  | .pnone, .pnone => true
  | .plist xs, .plist ys => pvEqList xs ys
  | .pdict xs, .pdict ys => pvEqDict xs ys
  | a, b =>
    match pvAsNum a, pvAsNum b with
    | some x, some y => decide (x = y)
    | _, _ => false

def pvEqList : List PValue → List PValue → Bool
  | [], [] => true
  | a :: as, b :: bs => pvEq a b && pvEqList as bs
  | _, _ => false

def pvEqDict : List (String × PValue) → List (String × PValue) → Bool
  | [], [] => true
  | (k, a) :: as, (k', b) :: bs => k == k' && pvEq a b && pvEqDict as bs
  | _, _ => false

end

/-- One declared parameter schema dict (`Option` encodes key presence;
`type` defaults to `str`, `required` to `False`, and an absent `default`
reads as `None`, exactly as `param_info.get(...)` does). -/
structure ParamInfo : Type where
  type : PyType := PyType.str
  required : Bool := false
  default : Option PValue := Option.none
  min : Option PValue := Option.none
  max : Option PValue := Option.none
  enum : Option (List PValue) := Option.none

/-- Validation of one supplied parameter: type check/coercion, then `min`,
`max` and `enum` constraints, in the source order. -/
def validateOne (param_name : String) (param_info : ParamInfo) (value : PValue) :
    Except PyErr PValue := do
  let v ←
    if isinst value param_info.type then pure value
    else
      match coerceTo param_info.type value with
      | some v' => pure v'
      | Option.none =>
        throw (PyErr.valueError ("Invalid type for parameter " ++ param_name))
  match param_info.min with
  | some m =>
    match pyLt v m with
    | some true =>
      throw (PyErr.valueError ("Parameter " ++ param_name ++ " must be >= " ++ pvStr m))
    | some false => pure ()
    | Option.none => throw (PyErr.typeError ("unsupported comparison for parameter " ++ param_name))
  | Option.none => pure ()
  match param_info.max with
  | some m =>
    match pyLt m v with
    | some true =>
      throw (PyErr.valueError ("Parameter " ++ param_name ++ " must be <= " ++ pvStr m))
    | some false => pure ()
    | Option.none => throw (PyErr.typeError ("unsupported comparison for parameter " ++ param_name))
  | Option.none => pure ()
  match param_info.enum with
  | some choices =>
    if choices.any (fun c => pvEq v c) then pure v
    else
      throw (PyErr.valueError
        ("Parameter " ++ param_name ++ " must be one of " ++ pvStr (PValue.plist choices)))
  | Option.none => pure v

/-- Source `Tool._validate_parameters`: walk the declared schema in order, validate
supplied values, reject missing required parameters, fill in defaults
(`None` when no default is declared). -/
def validate_parameters (params : List (String × ParamInfo))
    (kwargs : List (String × PValue)) : Except PyErr (List (String × PValue)) :=
  match params with
  | [] => Except.ok []
  | (param_name, param_info) :: rest =>
    match List.lookup param_name kwargs with
    | some value =>
      match validateOne param_name param_info value with
      | Except.error e => Except.error e
      | Except.ok v =>
        match validate_parameters rest kwargs with
        | Except.error e => Except.error e
        | Except.ok tail => Except.ok ((param_name, v) :: tail)
    | Option.none =>
      if param_info.required then
        Except.error (PyErr.valueError ("Required parameter " ++ param_name ++ " is missing"))
      else
        match validate_parameters rest kwargs with
        | Except.error e => Except.error e
        | Except.ok tail => Except.ok ((param_name, param_info.default.getD PValue.pnone) :: tail)

/-- Source `tool_manager.Tool` (the wrapped callable is injected as `fn`). -/
structure Tool : Type where
  name : String
  description : String
  fn : List (String × PValue) → Except PyErr PValue
  parameters : List (String × ParamInfo)
  category : String
  created_at : ℕ := 0
  usage_count : ℕ := 0
  success_rate : ℚ := 1
  last_used : Option ℕ := Option.none

/-- Source `Tool.execute`: increment `usage_count` and stamp `last_used` first,
then validate and call; the running success average is updated on every
path (validation failure and callable failure both count 0.0, success
counts 1.0) and the raised exception, if any, propagates alongside the
mutated tool. -/
def Tool.execute (t : Tool) (kwargs : List (String × PValue)) (now : ℕ) :
    Tool × Except PyErr PValue :=
  let t₁ := { t with usage_count := t.usage_count + 1, last_used := some now }
  let uc : ℚ := (t₁.usage_count : ℚ)
  match validate_parameters t.parameters kwargs with
  | Except.error e =>
    ({ t₁ with success_rate := (t₁.success_rate * (uc - 1) + 0) / uc }, Except.error e)
  | Except.ok validated_params =>
    match t.fn validated_params with
    | Except.error e =>
      ({ t₁ with success_rate := (t₁.success_rate * (uc - 1) + 0) / uc }, Except.error e)
    | Except.ok result =>
      ({ t₁ with success_rate := (t₁.success_rate * (uc - 1) + 1) / uc }, Except.ok result)

/-- Source `tool_manager.ToolManager` state. -/
structure ToolManager : Type where
  tools : List (String × Tool) := []
  tool_categories : List (String × List String) := []
  agent_tools : List (String × List String) := []

/-- Source `ToolManager.register_tool`: store the tool (overwriting any previous
one), append its name to its category list (unconditionally, as the source
does), and optionally grant it to an agent (creating the agent grant list,
appending only if absent). -/
def register_tool (tm : ToolManager) (tool : Tool) (agent_id : Option String) : ToolManager :=
  let tm₁ := { tm with tools := setA tm.tools tool.name tool }
  let cat_list := (List.lookup tool.category tm₁.tool_categories).getD []
  let tm₂ := { tm₁ with
    tool_categories := setA tm₁.tool_categories tool.category (cat_list ++ [tool.name]) }
  match agent_id with
  | Option.none => tm₂
  | some aid =>
    let ag := (List.lookup aid tm₂.agent_tools).getD []
    { tm₂ with
      agent_tools :=
        setA tm₂.agent_tools aid (if tool.name ∈ ag then ag else ag ++ [tool.name]) }

/-- Source `ToolManager.unregister_tool`: for a known name, remove it from its
category list (first occurrence, guarded as in the source), purge it from
every agent grant list, and delete the tool; unknown names are a silent
no-op. -/
def unregister_tool (tm : ToolManager) (tool_name : String) : ToolManager :=
  match List.lookup tool_name tm.tools with
  | Option.none => tm
  | some tool =>
    let cats :=
      match List.lookup tool.category tm.tool_categories with
      | Option.none => tm.tool_categories
      | some l => setA tm.tool_categories tool.category (l.erase tool_name)
    let ags := tm.agent_tools.map (fun p => (p.1, p.2.erase tool_name))
    { tools := delA tm.tools tool_name, tool_categories := cats, agent_tools := ags }

/-- Source `ToolManager.assign_tool_to_agent`: raises `ValueError` for an
unregistered tool; otherwise ensures the agent grant list exists and
appends the name if absent. -/
def assign_tool_to_agent (tm : ToolManager) (tool_name agent_id : String) :
    Except PyErr ToolManager :=
  match List.lookup tool_name tm.tools with
  | Option.none => Except.error (PyErr.valueError ("Tool " ++ tool_name ++ " does not exist"))
  | some _ =>
    let ag := (List.lookup agent_id tm.agent_tools).getD []
    Except.ok { tm with
      agent_tools := setA tm.agent_tools agent_id (if tool_name ∈ ag then ag else ag ++ [tool_name]) }

/-- Source `ToolManager.remove_tool_from_agent`: drop the grant if present. -/
def remove_tool_from_agent (tm : ToolManager) (tool_name agent_id : String) : ToolManager :=
  match List.lookup agent_id tm.agent_tools with
  | Option.none => tm
  | some l =>
    if tool_name ∈ l then
      { tm with agent_tools := setA tm.agent_tools agent_id (l.erase tool_name) }
    else tm

/-- The (negated) permission condition of `execute_tool`: the agent has an
explicit grant for the tool. -/
def hasGrant (tm : ToolManager) (agent_id tool_name : String) : Bool :=
  match List.lookup agent_id tm.agent_tools with
  | Option.none => false
  | some l => tool_name ∈ l

/-- Source `ToolManager.execute_tool`: default-deny permission check first, then
tool lookup, then `Tool.execute` (whose stat mutation persists in the
manager even when the call raises). -/
def execute_tool (tm : ToolManager) (tool_name agent_id : String)
    (kwargs : List (String × PValue)) (now : ℕ) : ToolManager × Except PyErr PValue :=
  if hasGrant tm agent_id tool_name then
    match List.lookup tool_name tm.tools with
    | Option.none => (tm, Except.error (PyErr.valueError ("Tool " ++ tool_name ++ " not found")))
    | some t =>
      let r := t.execute kwargs now
      ({ tm with tools := setA tm.tools tool_name r.1 }, r.2)
  else
    (tm, Except.error (PyErr.permissionError
      ("Agent " ++ agent_id ++ " does not have access to tool " ++ tool_name)))

/-! ### Claims about the evolution engine -/

theorem evolve_agent_eq {α β : Type} (eng : EvolutionEngine α β) (agent : AgentState)
    (request : EvolutionRequest) :
    evolve_agent eng agent request =
      match eng.analyzer agent with
      | Except.error e => Except.error e
      | Except.ok a =>
        match eng.researcher agent a with
        | Except.error e => Except.error e
        | Except.ok b =>
          match eng.coder agent b with
          | Except.error e => Except.error e
          | Except.ok mods =>
            match eng.player agent mods with
            | Except.error e => Except.error e
            | Except.ok tr =>
              Except.ok (apply_evolution agent mods tr request
                eng.improvement_factor eng.degradation_factor eng.now) := rfl

/-- C1: every completed `evolve_agent` call returns a state whose
`evolution_history` is the input state history with exactly one new
`EvolutionEvent` appended at the end — regardless of the outcome the Test
stage reported — leaving every prior entry untouched. -/
theorem evolve_agent_appends_one_event {α β : Type} (eng : EvolutionEngine α β)
    (agent : AgentState) (request : EvolutionRequest) (result : AgentState)
    (h : evolve_agent eng agent request = Except.ok result) :
    ∃ ev : EvolutionEvent, result.evolution_history = agent.evolution_history ++ [ev] := by
  rw [evolve_agent_eq] at h
  rcases ha : eng.analyzer agent with e | a <;> simp only [ha] at h
  · exact Except.noConfusion h
  rcases hr : eng.researcher agent a with e | b <;> simp only [hr] at h
  · exact Except.noConfusion h
  rcases hc : eng.coder agent b with e | mods <;> simp only [hc] at h
  · exact Except.noConfusion h
  rcases hp : eng.player agent mods with e | tr <;> simp only [hp] at h
  · exact Except.noConfusion h
  have hresult := Except.ok.inj h
  subst hresult
  exact ⟨_, rfl⟩

/-- C2: the stored state for an agent id is replaced only when all four
stages return without raising: a stage fault propagates unchanged out of
`evolve_agent` and `perform_evolution` leaves the store (and hence the
history) untouched, while a Test stage that merely reports
`success = false` still completes the pipeline, producing a new state whose
appended event carries `success = false`, which is written to the store. -/
theorem evolve_atomicity {α β : Type} (eng : EvolutionEngine α β) (store : AgentStore)
    (agent_id : String) (request : EvolutionRequest) (agent : AgentState)
    (hread : store agent_id = some agent) :
    (∀ e, eng.analyzer agent = Except.error e →
        evolve_agent eng agent request = Except.error e) ∧
    (∀ a e, eng.analyzer agent = Except.ok a →
        eng.researcher agent a = Except.error e →
        evolve_agent eng agent request = Except.error e) ∧
    (∀ a b e, eng.analyzer agent = Except.ok a →
        eng.researcher agent a = Except.ok b →
        eng.coder agent b = Except.error e →
        evolve_agent eng agent request = Except.error e) ∧
    (∀ a b m e, eng.analyzer agent = Except.ok a →
        eng.researcher agent a = Except.ok b →
        eng.coder agent b = Except.ok m →
        eng.player agent m = Except.error e →
        evolve_agent eng agent request = Except.error e) ∧
    (∀ e, evolve_agent eng agent request = Except.error e →
        perform_evolution eng store agent_id request = store) ∧
    (∀ a b m tr, eng.analyzer agent = Except.ok a →
        eng.researcher agent a = Except.ok b →
        eng.coder agent b = Except.ok m →
        eng.player agent m = Except.ok tr →
        ∃ ev : EvolutionEvent,
          evolve_agent eng agent request = Except.ok (apply_evolution agent m tr request
            eng.improvement_factor eng.degradation_factor eng.now) ∧
          (apply_evolution agent m tr request
            eng.improvement_factor eng.degradation_factor eng.now).evolution_history =
            agent.evolution_history ++ [ev] ∧
          ev.success = tr.success ∧
          perform_evolution eng store agent_id request =
            storeWrite store agent_id (apply_evolution agent m tr request
              eng.improvement_factor eng.degradation_factor eng.now)) := by
  refine ⟨?_, ?_, ?_, ?_, ?_, ?_⟩
  · intro e ha
    rw [evolve_agent_eq]
    simp only [ha]
  · intro a e ha hr
    rw [evolve_agent_eq]
    simp only [ha, hr]
  · intro a b e ha hr hc
    rw [evolve_agent_eq]
    simp only [ha, hr, hc]
  · intro a b m e ha hr hc hp
    rw [evolve_agent_eq]
    simp only [ha, hr, hc, hp]
  · intro e he
    unfold perform_evolution
    simp only [hread, he]
  · intro a b m tr ha hr hc hp
    have hok : evolve_agent eng agent request = Except.ok (apply_evolution agent m tr request
        eng.improvement_factor eng.degradation_factor eng.now) := by
      rw [evolve_agent_eq]
      simp only [ha, hr, hc, hp]
    refine ⟨_, hok, rfl, rfl, ?_⟩
    unfold perform_evolution
    simp only [hread, hok]

/-- C3: the metric update preserves the `[0, 1]` bound on every metric:
with the improvement factor drawn from `[1.05, 1.15]` the product is
clamped to at most 1.0, and with the degradation factor drawn from
`[0.95, 0.98]` it is floored at 0.0, so every returned value stays in
`[0.0, 1.0]`. -/
theorem calculate_new_metrics_bounds (old_metrics : List (String × ℚ))
    (test_results : TestResults) (improvement_factor degradation_factor : ℚ)
    (hold : ∀ p ∈ old_metrics, 0 ≤ p.2 ∧ p.2 ≤ 1)
    (himp : (1.05 : ℚ) ≤ improvement_factor ∧ improvement_factor ≤ 1.15)
    (hdeg : (0.95 : ℚ) ≤ degradation_factor ∧ degradation_factor ≤ 0.98) :
    ∀ p ∈ calculate_new_metrics old_metrics test_results
        improvement_factor degradation_factor, 0 ≤ p.2 ∧ p.2 ≤ 1 := by
  intro p hp
  unfold calculate_new_metrics at hp
  by_cases hs : test_results.success
  · rw [if_pos hs] at hp
    rcases List.mem_map.mp hp with ⟨q, hq, rfl⟩
    obtain ⟨hq0, hq1⟩ := hold q hq
    constructor
    · exact le_min (by norm_num) (mul_nonneg hq0 (le_trans (by norm_num) himp.1))
    · exact min_le_left _ _
  · rw [if_neg hs] at hp
    rcases List.mem_map.mp hp with ⟨q, hq, rfl⟩
    obtain ⟨hq0, hq1⟩ := hold q hq
    constructor
    · exact le_max_left _ _
    · refine max_le (by norm_num) ?_
      calc q.2 * degradation_factor ≤ q.2 * 1 :=
            mul_le_mul_of_nonneg_left (le_trans hdeg.2 (by norm_num)) hq0
        _ = q.2 := mul_one _
        _ ≤ 1 := hq1

theorem digitsToNat_append_digit (xs : List Char) (c : Char) :
    digitsToNat (xs ++ [c]) = 10 * digitsToNat xs + (c.toNat - 48) := by
  unfold digitsToNat
  rw [List.foldl_append]
  rfl

theorem digitChar_isDig : ∀ d : ℕ, d < 10 → isDig (Nat.digitChar d) = true := by
  decide

theorem digitChar_toNat : ∀ d : ℕ, d < 10 → (Nat.digitChar d).toNat - 48 = d := by
  decide

theorem natDigitsAux_correct :
    ∀ fuel n : ℕ, n ≤ fuel → digitsToNat (natDigitsAux fuel n) = n := by
  intro fuel
  induction fuel with
  | zero =>
    intro n hn
    have h0 : n = 0 := Nat.le_zero.mp hn
    subst h0
    rfl
  | succ fuel ih =>
    intro n hn
    by_cases h0 : n = 0
    · subst h0
      simp [natDigitsAux, digitsToNat]
    · rw [natDigitsAux, if_neg h0, digitsToNat_append_digit,
        ih (n / 10) (by omega), digitChar_toNat _ (Nat.mod_lt _ (by norm_num))]
      omega

theorem digitsToNat_natRender (n : ℕ) : digitsToNat (natRender n) = n := by
  unfold natRender
  by_cases h : n = 0
  · subst h; decide
  · rw [if_neg h, natDigitsAux_correct (n + 1) n (Nat.le_succ n)]

theorem natDigitsAux_all_digits :
    ∀ fuel n : ℕ, ∀ c ∈ natDigitsAux fuel n, isDig c = true := by
  intro fuel
  induction fuel with
  | zero => intro n c hc; cases hc
  | succ fuel ih =>
    intro n c hc
    by_cases h0 : n = 0
    · rw [natDigitsAux, if_pos h0] at hc
      cases hc
    · rw [natDigitsAux, if_neg h0] at hc
      rcases List.mem_append.mp hc with hc | hc
      · exact ih _ c hc
      · rcases List.mem_singleton.mp hc with rfl
        exact digitChar_isDig _ (Nat.mod_lt _ (by norm_num))

theorem natRender_all_digits (n : ℕ) : ∀ c ∈ natRender n, isDig c = true := by
  unfold natRender
  by_cases h : n = 0
  · subst h; decide
  · rw [if_neg h]
    exact natDigitsAux_all_digits (n + 1) n

theorem lex_append_last {xs : List ℕ} {a b : ℕ} (h : a < b) :
    List.Lex (· < ·) (xs ++ [a]) (xs ++ [b]) := by
  induction xs with
  | nil => exact List.Lex.rel h
  | cons x xs ih => exact List.Lex.cons ih

theorem getLastD_mem {α : Type} (l : List α) (d : α) (h : l ≠ []) : l.getLastD d ∈ l := by
  cases l with
  | nil => exact absurd rfl h
  | cons a t =>
    rw [List.getLastD_eq_getLast?, List.getLast?_eq_getLast _ (by simp)]
    exact List.getLast_mem _

/-- C8: `_increment_version` splits on dots, parses the final component as
an integer, increments it and rejoins, leaving every earlier component
unchanged; a parse failure yields the fixed fallback `"1.0.1"` instead of
raising; and on every well-formed dot-separated-digit version the result is
strictly greater under the dot-integer ordering. -/
theorem increment_version_correct :
    (∀ v : String, pyParseInt ((splitOnDot v.data).getLastD []) = Option.none →
        increment_version v = "1.0.1") ∧
    (∀ v : String, wellFormedVersion v →
        (splitOnDot (increment_version v).data).dropLast = (splitOnDot v.data).dropLast ∧
        (splitOnDot (increment_version v).data).getLastD [] =
          natRender (digitsToNat ((splitOnDot v.data).getLastD []) + 1) ∧
        verDotLt v (increment_version v)) := by
  constructor
  · intro v hfail
    unfold increment_version
    rw [hfail]
  · intro v hwf
    have hne : splitOnDot v.data ≠ [] := splitOnDot_ne_nil v.data
    have hlast_mem : (splitOnDot v.data).getLastD [] ∈ splitOnDot v.data :=
      getLastD_mem _ _ hne
    obtain ⟨hlast_ne, hlast_dig⟩ := hwf _ hlast_mem
    have hparse : pyParseInt ((splitOnDot v.data).getLastD []) =
        some ((digitsToNat ((splitOnDot v.data).getLastD []) : ℤ)) :=
      pyParseInt_digits _ hlast_ne hlast_dig
    have hren : intRender ((digitsToNat ((splitOnDot v.data).getLastD []) : ℤ) + 1) =
        natRender (digitsToNat ((splitOnDot v.data).getLastD []) + 1) := by
      unfold intRender
      rw [if_neg (by omega)]
      congr 1
    have hinc : increment_version v =
        String.mk (joinDot ((splitOnDot v.data).dropLast ++
          [natRender (digitsToNat ((splitOnDot v.data).getLastD []) + 1)])) := by
      unfold increment_version
      simp only [hparse]
      rw [hren]
    have hnodot : ∀ p ∈ (splitOnDot v.data).dropLast ++
        [natRender (digitsToNat ((splitOnDot v.data).getLastD []) + 1)], '.' ∉ p := by
      intro p hp
      rcases List.mem_append.mp hp with hp | hp
      · exact splitOnDot_no_dot v.data p ((List.dropLast_sublist _).subset hp)
      · rw [List.mem_singleton.mp hp]
        intro hdot
        have := natRender_all_digits _ '.' hdot
        simp [isDig] at this
    have hsplit : splitOnDot (increment_version v).data =
        (splitOnDot v.data).dropLast ++
          [natRender (digitsToNat ((splitOnDot v.data).getLastD []) + 1)] := by
      rw [hinc]
      exact splitOnDot_joinDot _ (by simp) hnodot
    have hv : splitOnDot v.data =
        (splitOnDot v.data).dropLast ++ [(splitOnDot v.data).getLastD []] := by
      rw [List.getLastD_eq_getLast?, List.getLast?_eq_getLast _ hne]
      exact (List.dropLast_append_getLast hne).symm
    refine ⟨?_, ?_, ?_⟩
    · rw [hsplit, List.dropLast_concat]
    · rw [hsplit, List.getLastD_eq_getLast?, List.getLast?_concat]
      rfl
    · unfold verDotLt
      rw [hsplit, List.map_append, List.map_singleton, digitsToNat_natRender]
      nth_rewrite 1 [hv]
      rw [List.map_append, List.map_singleton]
      exact lex_append_last (Nat.lt_succ_self _)

/-! ### Claims about the memory manager -/

theorem store_memory_fst (mm : MemoryManager) (agent_id : String) (memory_data : JValue)
    (now : ℕ) :
    (store_memory mm agent_id memory_data now).1 =
      cleanup_memory
        { mm with
          memory_store := setA mm.memory_store agent_id
            (setA ((List.lookup agent_id mm.memory_store).getD [])
              (generate_memory_id memory_data) (mkMemoryEntry memory_data now)) }
        agent_id := rfl

theorem cleanup_memory_lookup (mm : MemoryManager) (agent_id : String)
    (l : List (String × MemoryEntry)) (h : List.lookup agent_id mm.memory_store = some l) :
    (List.lookup agent_id (cleanup_memory mm agent_id).memory_store).getD [] =
      if l.length ≤ mm.memory_limit then l
      else (List.insertionSort entryGE l).take mm.memory_limit := by
  unfold cleanup_memory
  simp only [h]
  by_cases hl : l.length ≤ mm.memory_limit
  · rw [if_pos hl, if_pos hl, h]
    rfl
  · rw [if_neg hl, if_neg hl]
    simp [lookup_setA_self]

/-- C6: after every `store_memory` call the agent entry count is at most
the capacity limit; when the inserted dict exceeded the limit it is evicted
down to exactly the limit; and every retained entry
`(importance, access_count)` pair dominates every evicted entry pair in
the descending lexicographic order (priority eviction, not recency). -/
theorem store_memory_capacity (mm : MemoryManager) (agent_id : String)
    (memory_data : JValue) (now : ℕ) :
    ((List.lookup agent_id (store_memory mm agent_id memory_data now).1.memory_store).getD
        []).length ≤ mm.memory_limit ∧
    (mm.memory_limit <
        (setA ((List.lookup agent_id mm.memory_store).getD [])
          (generate_memory_id memory_data) (mkMemoryEntry memory_data now)).length →
      ((List.lookup agent_id (store_memory mm agent_id memory_data now).1.memory_store).getD
          []).length = mm.memory_limit) ∧
    (∀ e ∈ setA ((List.lookup agent_id mm.memory_store).getD [])
          (generate_memory_id memory_data) (mkMemoryEntry memory_data now),
      e ∉ (List.lookup agent_id
          (store_memory mm agent_id memory_data now).1.memory_store).getD [] →
      ∀ k ∈ (List.lookup agent_id
          (store_memory mm agent_id memory_data now).1.memory_store).getD [],
        entryGE k e) := by
  have hpost :
      (List.lookup agent_id (store_memory mm agent_id memory_data now).1.memory_store).getD [] =
        if (setA ((List.lookup agent_id mm.memory_store).getD [])
              (generate_memory_id memory_data) (mkMemoryEntry memory_data now)).length ≤
            mm.memory_limit then
          setA ((List.lookup agent_id mm.memory_store).getD [])
            (generate_memory_id memory_data) (mkMemoryEntry memory_data now)
        else
          (List.insertionSort entryGE
            (setA ((List.lookup agent_id mm.memory_store).getD [])
              (generate_memory_id memory_data) (mkMemoryEntry memory_data now))).take
            mm.memory_limit := by
    rw [store_memory_fst]
    exact cleanup_memory_lookup _ _ _ (lookup_setA_self _ _ _)
  by_cases hl : (setA ((List.lookup agent_id mm.memory_store).getD [])
      (generate_memory_id memory_data) (mkMemoryEntry memory_data now)).length ≤ mm.memory_limit
  · rw [if_pos hl] at hpost
    refine ⟨hpost ▸ hl, fun hgt => absurd hl (by omega), ?_⟩
    intro e he hnot
    rw [hpost] at hnot
    exact absurd he hnot
  · rw [if_neg hl] at hpost
    have hperm := List.perm_insertionSort entryGE
      (setA ((List.lookup agent_id mm.memory_store).getD [])
        (generate_memory_id memory_data) (mkMemoryEntry memory_data now))
    have hlen : (List.insertionSort entryGE
        (setA ((List.lookup agent_id mm.memory_store).getD [])
          (generate_memory_id memory_data) (mkMemoryEntry memory_data now))).length =
        (setA ((List.lookup agent_id mm.memory_store).getD [])
          (generate_memory_id memory_data) (mkMemoryEntry memory_data now)).length :=
      hperm.length_eq
    refine ⟨?_, ?_, ?_⟩
    · rw [hpost, List.length_take]
      exact min_le_left _ _
    · intro _
      rw [hpost, List.length_take, hlen]
      omega
    · intro e he hnot k hk
      have hsorted : List.Pairwise entryGE (List.insertionSort entryGE
          (setA ((List.lookup agent_id mm.memory_store).getD [])
            (generate_memory_id memory_data) (mkMemoryEntry memory_data now))) :=
        List.sorted_insertionSort entryGE _
      have hmem_sorted : e ∈ List.insertionSort entryGE
          (setA ((List.lookup agent_id mm.memory_store).getD [])
            (generate_memory_id memory_data) (mkMemoryEntry memory_data now)) :=
        hperm.mem_iff.mpr he
      rw [hpost] at hnot hk
      have hsplit := (List.take_append_drop mm.memory_limit
        (List.insertionSort entryGE
          (setA ((List.lookup agent_id mm.memory_store).getD [])
            (generate_memory_id memory_data) (mkMemoryEntry memory_data now)))).symm
      rw [hsplit] at hsorted
      rw [List.pairwise_append] at hsorted
      have hdrop : e ∈ (List.insertionSort entryGE
          (setA ((List.lookup agent_id mm.memory_store).getD [])
            (generate_memory_id memory_data) (mkMemoryEntry memory_data now))).drop
          mm.memory_limit := by
        rcases List.mem_append.mp (hsplit ▸ hmem_sorted) with h | h
        · exact absurd h hnot
        · exact h
      exact hsorted.2.2 k hk e hdrop

/-- The payload of the spec search example: one entry containing the term
"alpha" but not "beta". -/
def exampleEntryData : JValue := JValue.jobj [("note", JValue.jstr "alpha")]

/-- A memory store holding exactly that one entry for `"agent1"`. -/
def exampleMM : MemoryManager :=
  { memory_store :=
      [("agent1", [(generate_memory_id exampleEntryData, mkMemoryEntry exampleEntryData 0)])]
    memory_limit := 10000 }

/-- C7 counterexample: the claim predicts that `Search("alpha beta")` over a
single entry whose payload contains only "alpha" returns that entry with
relevance 0.5; in the code, `_matches_query` requires the *whole* lowercased
query to occur as a contiguous substring of the serialized payload, so the
entry is filtered out and the result is empty — even though the scorer, had
it been reached, would have assigned exactly 0.5. -/
theorem search_memories_counterexample :
    search_memories exampleMM "agent1" "alpha beta" 10 = [] ∧
    calculate_relevance exampleEntryData "alpha beta" = 1 / 2 := by
  constructor
  · rfl
  · simp only [calculate_relevance]
    norm_num [show (List.filter (fun t => containsSub (lowerChars (dumps exampleEntryData)) t)
        (splitWs (lowerChars "alpha beta".data))).length = 1 from rfl,
      show (splitWs (lowerChars "alpha beta".data)).length = 2 from rfl,
      show (splitWs (lowerChars "alpha beta".data)).isEmpty = false from rfl]

/-- C7 (amended): `search_memories` returns only entries whose serialized
payload contains the entire lowercased query as a contiguous substring
(whole-query match, not per-term); each returned entry is scored as (number
of query terms found) / (number of query terms) — 0 when the query has no
terms — and results are sorted by descending relevance; consequently the
"alpha beta" search over a single entry containing only "alpha" returns no
results. -/
theorem search_memories_spec (mm : MemoryManager) (agent_id query : String) (limit : ℕ) :
    List.Pairwise relGE (search_memories mm agent_id query limit) ∧
    (search_memories mm agent_id query limit).Forall
      (fun r => matches_query r.data query = true ∧
        r.relevance = calculate_relevance r.data query) ∧
    search_memories exampleMM "agent1" "alpha beta" 10 = [] := by
  refine ⟨?_, ?_, rfl⟩
  · unfold search_memories
    cases hlk : List.lookup agent_id mm.memory_store with
    | none => exact List.Pairwise.nil
    | some memories =>
      exact List.Pairwise.sublist (List.take_sublist _ _)
        (List.sorted_insertionSort relGE _)
  · rw [List.forall_iff_forall_mem]
    intro r hr
    unfold search_memories at hr
    cases hlk : List.lookup agent_id mm.memory_store with
    | none => simp only [hlk] at hr; cases hr
    | some memories =>
      simp only [hlk] at hr
      have hr₂ := List.take_subset _ _ hr
      have hr₃ := (List.perm_insertionSort relGE _).mem_iff.mp hr₂
      rcases List.mem_map.mp hr₃ with ⟨p, hp, rfl⟩
      exact ⟨(List.mem_filter.mp hp).2, rfl⟩

/-! ### Claims about the tool manager -/

/-- C4: with no grant for `(agent_id, tool_name)` the call fails with
`PermissionError` — even when the tool is registered and the parameters are
valid — before any parameter validation runs (the result, including the
untouched manager state, does not depend on `kwargs` at all: default-deny). -/
theorem execute_tool_default_deny (tm : ToolManager) (tool_name agent_id : String)
    (kwargs : List (String × PValue)) (now : ℕ)
    (h : hasGrant tm agent_id tool_name = false) :
    execute_tool tm tool_name agent_id kwargs now =
      (tm, Except.error (PyErr.permissionError
        ("Agent " ++ agent_id ++ " does not have access to tool " ++ tool_name))) := by
  simp [execute_tool, h]

/-- The registered `analyze_data` tool with its required `data` parameter,
a fresh statistics record, and a callable that would succeed. -/
def toolWithRequired : Tool :=
  { name := "analyze_data"
    description := "Analyze data and generate insights"
    fn := fun _ => Except.ok PValue.pnone
    parameters := [("data", { type := PyType.list, required := true })]
    category := "data_analysis" }

/-- C5 counterexample: the claim says an attempt rejected by parameter
validation does not increment `usage_count`; in the code `Tool.execute`
increments `usage_count` *before* validating, so calling the fresh
`analyze_data` tool with its required `data` parameter missing raises the
validation `ValueError` yet drives `usage_count` from 0 to 1. -/
theorem tool_usage_count_counterexample :
    toolWithRequired.usage_count = 0 ∧
    (toolWithRequired.execute [] 0).1.usage_count = 1 ∧
    (toolWithRequired.execute [] 0).2 =
      Except.error (PyErr.valueError "Required parameter data is missing") := by
  refine ⟨rfl, rfl, rfl⟩

/-- C5 (amended): `usage_count` increments on every call attempt that
passes the permission check — including attempts rejected by parameter
validation, which the source counts because it increments before
validating — and `success_rate` is recomputed as the running average of 1.0
for successes and 0.0 for failures across all these attempts, updating even
when validation or the underlying callable raises, so a string of failures
drives the rate toward 0. -/
theorem tool_stats_running_average (t : Tool) (kwargs : List (String × PValue)) (now : ℕ) :
    (t.execute kwargs now).1.usage_count = t.usage_count + 1 ∧
    (t.execute kwargs now).1.success_rate =
      (t.success_rate * (t.usage_count : ℚ) +
        (match (t.execute kwargs now).2 with
         | Except.ok _ => 1
         | Except.error _ => 0)) / ((t.usage_count : ℚ) + 1) := by
  simp only [Tool.execute]
  split
  · refine ⟨rfl, ?_⟩
    show (t.success_rate * (((t.usage_count + 1 : ℕ) : ℚ) - 1) + 0) /
        ((t.usage_count + 1 : ℕ) : ℚ) = _
    push_cast
    ring_nf
  · split
    · refine ⟨rfl, ?_⟩
      show (t.success_rate * (((t.usage_count + 1 : ℕ) : ℚ) - 1) + 0) /
          ((t.usage_count + 1 : ℕ) : ℚ) = _
      push_cast
      ring_nf
    · refine ⟨rfl, ?_⟩
      show (t.success_rate * (((t.usage_count + 1 : ℕ) : ℚ) - 1) + 1) /
          ((t.usage_count + 1 : ℕ) : ℚ) = _
      push_cast
      ring_nf

/-- Invariant: every name in any agent grant list is a key of the tools
map. -/
def grantsClosed (tm : ToolManager) : Prop :=
  ∀ aid l, List.lookup aid tm.agent_tools = some l →
    ∀ n ∈ l, (List.lookup n tm.tools).isSome = true

/-- Auxiliary invariant: grant lists never hold duplicates (both appenders
are guarded by a membership check). -/
def grantsNodup (tm : ToolManager) : Prop :=
  ∀ aid l, List.lookup aid tm.agent_tools = some l → l.Nodup

/-- States of the tool manager reachable from the empty registry through
registration, unregistration, and grant management. -/
inductive ReachableTM : ToolManager → Prop
  | init : ReachableTM {}
  | reg (tm : ToolManager) (tool : Tool) (agent_id : Option String) :
      ReachableTM tm → ReachableTM (register_tool tm tool agent_id)
  | unreg (tm : ToolManager) (tool_name : String) :
      ReachableTM tm → ReachableTM (unregister_tool tm tool_name)
  | assign (tm tm' : ToolManager) (tool_name agent_id : String) :
      ReachableTM tm → assign_tool_to_agent tm tool_name agent_id = Except.ok tm' →
      ReachableTM tm'
  | remove (tm : ToolManager) (tool_name agent_id : String) :
      ReachableTM tm → ReachableTM (remove_tool_from_agent tm tool_name agent_id)

theorem register_tool_tools (tm : ToolManager) (tool : Tool) (agent_id : Option String) :
    (register_tool tm tool agent_id).tools = setA tm.tools tool.name tool := by
  cases agent_id <;> rfl

theorem register_tool_agent_tools_none (tm : ToolManager) (tool : Tool) :
    (register_tool tm tool Option.none).agent_tools = tm.agent_tools := rfl

theorem register_tool_agent_tools_some (tm : ToolManager) (tool : Tool) (aid : String) :
    (register_tool tm tool (some aid)).agent_tools =
      setA tm.agent_tools aid
        (if tool.name ∈ (List.lookup aid tm.agent_tools).getD [] then
          (List.lookup aid tm.agent_tools).getD []
        else (List.lookup aid tm.agent_tools).getD [] ++ [tool.name]) := rfl

theorem unregister_tool_unknown (tm : ToolManager) (n : String)
    (h : List.lookup n tm.tools = Option.none) : unregister_tool tm n = tm := by
  unfold unregister_tool
  rw [h]

theorem unregister_tool_known (tm : ToolManager) (n : String) (t : Tool)
    (h : List.lookup n tm.tools = some t) :
    unregister_tool tm n =
      { tools := delA tm.tools n
        tool_categories :=
          match List.lookup t.category tm.tool_categories with
          | Option.none => tm.tool_categories
          | some l => setA tm.tool_categories t.category (l.erase n)
        agent_tools := tm.agent_tools.map (fun p => (p.1, p.2.erase n)) } := by
  unfold unregister_tool
  rw [h]

theorem assign_tool_ok (tm : ToolManager) (n aid : String) (tm' : ToolManager)
    (h : assign_tool_to_agent tm n aid = Except.ok tm') :
    (List.lookup n tm.tools).isSome = true ∧
    tm' = { tm with
      agent_tools := setA tm.agent_tools aid
        (if n ∈ (List.lookup aid tm.agent_tools).getD [] then
          (List.lookup aid tm.agent_tools).getD []
        else (List.lookup aid tm.agent_tools).getD [] ++ [n]) } := by
  unfold assign_tool_to_agent at h
  cases hl : List.lookup n tm.tools with
  | none =>
    simp only [hl] at h
    exact Except.noConfusion h
  | some t =>
    simp only [hl] at h
    exact ⟨rfl, (Except.ok.inj h).symm⟩

/-- Closure/nodup survive granting a (registered) name `gname` to `aid₀` on
top of tools that contain it. -/
theorem inv_grant_step (tm : ToolManager) (tools' : List (String × Tool))
    (gname aid₀ : String)
    (hc : grantsClosed tm) (hn : grantsNodup tm)
    (htools : ∀ m, (List.lookup m tm.tools).isSome = true →
      (List.lookup m tools').isSome = true)
    (hgname : (List.lookup gname tools').isSome = true) :
    (∀ aid l, List.lookup aid
        (setA tm.agent_tools aid₀
          (if gname ∈ (List.lookup aid₀ tm.agent_tools).getD [] then
            (List.lookup aid₀ tm.agent_tools).getD []
          else (List.lookup aid₀ tm.agent_tools).getD [] ++ [gname])) = some l →
      (∀ n ∈ l, (List.lookup n tools').isSome = true) ∧ l.Nodup) := by
  intro aid l hl
  rw [lookup_setA] at hl
  by_cases haid : aid = aid₀
  · rw [if_pos haid] at hl
    have hl' := (Option.some.inj hl).symm
    cases hbase : List.lookup aid₀ tm.agent_tools with
    | none =>
      rw [hbase] at hl'
      simp only [Option.getD_none] at hl'
      by_cases hin : gname ∈ ([] : List String)
      · cases hin
      · rw [if_neg hin] at hl'
        subst hl'
        refine ⟨?_, by simp⟩
        intro n hniml
        rcases List.mem_singleton.mp (by simpa using hniml) with rfl
        exact hgname
    | some l₀ =>
      rw [hbase] at hl'
      simp only [Option.getD_some] at hl'
      by_cases hin : gname ∈ l₀
      · rw [if_pos hin] at hl'
        subst hl'
        exact ⟨fun n hnl => htools n (hc aid₀ l hbase n hnl), hn aid₀ l hbase⟩
      · rw [if_neg hin] at hl'
        subst hl'
        constructor
        · intro n hnl
          rcases List.mem_append.mp hnl with hnl | hnl
          · exact htools n (hc aid₀ l₀ hbase n hnl)
          · rcases List.mem_singleton.mp hnl with rfl
            exact hgname
        · exact List.Nodup.append (hn aid₀ l₀ hbase) (List.nodup_singleton _)
            (List.disjoint_singleton.mpr hin)
  · rw [if_neg haid] at hl
    exact ⟨fun n hnl => htools n (hc aid l hl n hnl), hn aid l hl⟩

theorem reachable_inv (tm : ToolManager) (h : ReachableTM tm) :
    grantsClosed tm ∧ grantsNodup tm := by
  induction h with
  | init =>
    constructor
    · intro aid l hl
      cases hl
    · intro aid l hl
      cases hl
  | reg tm tool agent_id _ ih =>
    obtain ⟨hc, hn⟩ := ih
    have htools : ∀ m, (List.lookup m tm.tools).isSome = true →
        (List.lookup m (register_tool tm tool agent_id).tools).isSome = true := by
      intro m hm
      rw [register_tool_tools, lookup_setA]
      by_cases hname : m = tool.name
      · simp [hname]
      · rw [if_neg hname]; exact hm
    cases agent_id with
    | none =>
      constructor
      · intro aid l hl n hnl
        rw [register_tool_agent_tools_none] at hl
        exact htools n (hc aid l hl n hnl)
      · intro aid l hl
        rw [register_tool_agent_tools_none] at hl
        exact hn aid l hl
    | some aid₀ =>
      have hgname : (List.lookup tool.name (register_tool tm tool (some aid₀)).tools).isSome
          = true := by
        rw [register_tool_tools, lookup_setA_self]; rfl
      have hstep := inv_grant_step tm (register_tool tm tool (some aid₀)).tools
        tool.name aid₀ hc hn htools hgname
      constructor
      · intro aid l hl n hnl
        rw [register_tool_agent_tools_some] at hl
        exact (hstep aid l hl).1 n hnl
      · intro aid l hl
        rw [register_tool_agent_tools_some] at hl
        exact (hstep aid l hl).2
  | unreg tm n _ ih =>
    obtain ⟨hc, hn⟩ := ih
    cases htool : List.lookup n tm.tools with
    | none => rw [unregister_tool_unknown tm n htool]; exact ⟨hc, hn⟩
    | some t =>
      rw [unregister_tool_known tm n t htool]
      constructor
      · intro aid l hl m hm
        simp only [lookup_map_erase] at hl
        cases hbase : List.lookup aid tm.agent_tools with
        | none => rw [hbase] at hl; cases hl
        | some l₀ =>
          rw [hbase] at hl
          have hl' := (Option.some.inj hl).symm
          subst hl'
          obtain ⟨hne, hmem⟩ := (List.Nodup.mem_erase_iff (hn aid l₀ hbase)).mp hm
          show (List.lookup m (delA tm.tools n)).isSome = true
          rw [lookup_delA_ne _ _ _ hne]
          exact hc aid l₀ hbase m hmem
      · intro aid l hl
        simp only [lookup_map_erase] at hl
        cases hbase : List.lookup aid tm.agent_tools with
        | none => rw [hbase] at hl; cases hl
        | some l₀ =>
          rw [hbase] at hl
          have hl' := (Option.some.inj hl).symm
          subst hl'
          exact (hn aid l₀ hbase).erase n
  | assign tm tm' n aid _ hok ih =>
    obtain ⟨hc, hn⟩ := ih
    obtain ⟨hsome, rfl⟩ := assign_tool_ok tm n aid tm' hok
    have hstep := inv_grant_step tm tm.tools n aid hc hn (fun m hm => hm) hsome
    exact ⟨fun aid' l hl n' hnl => (hstep aid' l hl).1 n' hnl,
      fun aid' l hl => (hstep aid' l hl).2⟩
  | remove tm n aid _ ih =>
    obtain ⟨hc, hn⟩ := ih
    unfold remove_tool_from_agent
    cases hbase : List.lookup aid tm.agent_tools with
    | none => exact ⟨hc, hn⟩
    | some l₀ =>
      show grantsClosed (if n ∈ l₀ then
          { tm with agent_tools := setA tm.agent_tools aid (l₀.erase n) } else tm) ∧
        grantsNodup (if n ∈ l₀ then
          { tm with agent_tools := setA tm.agent_tools aid (l₀.erase n) } else tm)
      by_cases hin : n ∈ l₀
      · rw [if_pos hin]
        constructor
        · intro aid' l hl m hm
          rw [lookup_setA] at hl
          by_cases haid : aid' = aid
          · rw [if_pos haid] at hl
            have hl' := (Option.some.inj hl).symm
            subst hl'
            exact hc aid l₀ hbase m (List.mem_of_mem_erase hm)
          · rw [if_neg haid] at hl
            exact hc aid' l hl m hm
        · intro aid' l hl
          rw [lookup_setA] at hl
          by_cases haid : aid' = aid
          · rw [if_pos haid] at hl
            have hl' := (Option.some.inj hl).symm
            subst hl'
            exact (hn aid l₀ hbase).erase n
          · rw [if_neg haid] at hl
            exact hn aid' l hl
      · rw [if_neg hin]
        exact ⟨hc, hn⟩

/-- C10: in every reachable tool-manager state, every name in any agent
grant list is a registered tool (no grant ever dangles):
`assign_tool_to_agent` raises `ValueError` for an unregistered name, and
`unregister_tool` is a silent no-op for an unknown name while for a known
one it purges the name from every agent grant list and removes it from
its category index list. -/
theorem tool_grants_never_dangle (tm : ToolManager) (h : ReachableTM tm) :
    grantsClosed tm ∧
    (∀ n, List.lookup n tm.tools = Option.none → unregister_tool tm n = tm) ∧
    (∀ n aid, List.lookup n tm.tools = Option.none →
        assign_tool_to_agent tm n aid =
          Except.error (PyErr.valueError ("Tool " ++ n ++ " does not exist"))) ∧
    (∀ n aid l, List.lookup aid (unregister_tool tm n).agent_tools = some l → n ∉ l) ∧
    (∀ n t, List.lookup n tm.tools = some t →
        (List.lookup t.category (unregister_tool tm n).tool_categories).getD [] =
          ((List.lookup t.category tm.tool_categories).getD []).erase n) := by
  obtain ⟨hc, hn⟩ := reachable_inv tm h
  refine ⟨hc, ?_, ?_, ?_, ?_⟩
  · intro n hnone
    exact unregister_tool_unknown tm n hnone
  · intro n aid hnone
    unfold assign_tool_to_agent
    rw [hnone]
  · intro n aid l hl
    cases htool : List.lookup n tm.tools with
    | none =>
      rw [unregister_tool_unknown tm n htool] at hl
      intro hmem
      have hsome := hc aid l hl n hmem
      rw [htool] at hsome
      cases hsome
    | some t =>
      rw [unregister_tool_known tm n t htool] at hl
      simp only [lookup_map_erase] at hl
      cases hbase : List.lookup aid tm.agent_tools with
      | none => rw [hbase] at hl; cases hl
      | some l₀ =>
        rw [hbase] at hl
        have hl' := (Option.some.inj hl).symm
        subst hl'
        exact (hn aid l₀ hbase).not_mem_erase
  · intro n t htool
    rw [unregister_tool_known tm n t htool]
    cases hcat : List.lookup t.category tm.tool_categories with
    | none => simp [hcat]
    | some l => simp [hcat, lookup_setA_self]

/-! ### Concrete fixtures and the concurrency demonstration -/

/-- A concrete engine whose four stages all succeed and whose Test stage
reports success (factors fixed, clock at tick 7). -/
def engOk : EvolutionEngine Unit Unit :=
  { analyzer := fun _ => Except.ok ()
    researcher := fun _ _ => Except.ok ()
    coder := fun _ _ => Except.ok {}
    player := fun _ _ => Except.ok { success := true }
    improvement_factor := 11 / 10
    degradation_factor := 24 / 25
    now := 7 }

/-- The same engine with an Analyze stage that raises. -/
def engFail : EvolutionEngine Unit Unit :=
  { engOk with analyzer := fun _ => Except.error "analyzer crashed" }

/-- The default agent created by `main.startup_event`. -/
def defaultAgent : AgentState :=
  { agent_id := "default"
    name := "Business Intelligence Agent"
    version := "1.0.0"
    capabilities := ["data_analysis", "report_generation", "task_automation"]
    performance_metrics :=
      [("accuracy", 85 / 100), ("efficiency", 78 / 100), ("adaptability", 82 / 100)]
    evolution_history := []
    created_at := 0
    last_evolution := 0 }

/-- The agent-state store holding just the default agent. -/
def defaultStore : AgentStore :=
  fun a => if a = "default" then some defaultAgent else Option.none

/-- A scheduled evolution request. -/
def schedReq : EvolutionRequest := { trigger := EvolutionTrigger.scheduled }

/-- C9 (code demonstration): `perform_evolution` holds no lock around its
read-modify-write cycle, so the schedule in which both background tasks
read the stored state before either writes is permitted by the source; it
silently loses the first update — the final history holds exactly ONE new
entry, where the claim demands two (as two serialized calls, shown in the
second conjunct, indeed produce). -/
theorem race_lost_update_demo :
    ((race_two_evolutions engOk defaultStore "default" schedReq schedReq) "default").map
        (fun s => s.evolution_history.length) = some 1 ∧
    ((perform_evolution engOk (perform_evolution engOk defaultStore "default" schedReq)
        "default" schedReq) "default").map
        (fun s => s.evolution_history.length) = some 2 :=
  ⟨rfl, rfl⟩

/-! ### Witnesses -/

/-- Witness for C1 at the concrete all-ok engine and default agent. -/
theorem evolve_agent_appends_one_event_witness :
    ∃ ev : EvolutionEvent,
      (apply_evolution defaultAgent {} { success := true } schedReq
        engOk.improvement_factor engOk.degradation_factor engOk.now).evolution_history =
      defaultAgent.evolution_history ++ [ev] :=
  evolve_agent_appends_one_event engOk defaultAgent schedReq _ rfl

/-- Witness for C2: a raising Analyze stage propagates unchanged and leaves
the store untouched. -/
theorem evolve_atomicity_witness :
    evolve_agent engFail defaultAgent schedReq = Except.error "analyzer crashed" ∧
    perform_evolution engFail defaultStore "default" schedReq = defaultStore := by
  have h := evolve_atomicity engFail defaultStore "default" schedReq defaultAgent rfl
  have herr : evolve_agent engFail defaultAgent schedReq = Except.error "analyzer crashed" :=
    h.1 "analyzer crashed" rfl
  exact ⟨herr, h.2.2.2.2.1 "analyzer crashed" herr⟩

/-- Witness for C3 at the spec scenario metric `accuracy = 0.90` with the
improvement factor fixed at 1.10. -/
theorem calculate_new_metrics_bounds_witness :
    0 ≤ (min 1 ((9 / 10 : ℚ) * (11 / 10))) ∧ (min 1 ((9 / 10 : ℚ) * (11 / 10))) ≤ 1 :=
  calculate_new_metrics_bounds [("accuracy", 9 / 10)] { success := true } (11 / 10) (24 / 25)
    (by
      intro p hp
      rcases List.mem_singleton.mp hp with rfl
      constructor <;> norm_num)
    ⟨by norm_num, by norm_num⟩ ⟨by norm_num, by norm_num⟩
    ("accuracy", min 1 ((9 / 10 : ℚ) * (11 / 10)))
    (by
      have hc : calculate_new_metrics [("accuracy", 9 / 10)] { success := true }
          (11 / 10) (24 / 25) = [("accuracy", min 1 ((9 / 10 : ℚ) * (11 / 10)))] := rfl
      rw [hc]
      exact List.mem_singleton.mpr rfl)

/-- A manager holding the registered `analyze_data` tool with no grants. -/
def tmNoGrant : ToolManager := register_tool {} toolWithRequired Option.none

/-- Witness for C4: `agentX` has no grant, so executing the registered
`analyze_data` tool with valid parameters is refused. -/
theorem execute_tool_default_deny_witness :
    execute_tool tmNoGrant "analyze_data" "agentX"
        [("data", PValue.plist [])] 3 =
      (tmNoGrant, Except.error (PyErr.permissionError
        "Agent agentX does not have access to tool analyze_data")) :=
  execute_tool_default_deny tmNoGrant "analyze_data" "agentX" [("data", PValue.plist [])] 3 rfl

/-- A low-priority payload (importance defaults to 0.5). -/
def lowData : JValue := JValue.jobj [("note", JValue.jstr "low")]

/-- A higher-priority payload (importance 1, an int as Python permits). -/
def highData : JValue :=
  JValue.jobj [("note", JValue.jstr "high"), ("importance", JValue.jint 1)]

/-- A memory manager with capacity 1 holding the low-priority entry. -/
def mmSmall : MemoryManager :=
  { memory_store := [("a1", [(generate_memory_id lowData, mkMemoryEntry lowData 0)])]
    memory_limit := 1 }

/-- Witness for C6: storing the higher-priority entry in the full capacity-1
store evicts down to exactly one entry, and the retained entry dominates
the evicted one. -/
theorem store_memory_capacity_witness :
    ((List.lookup "a1" (store_memory mmSmall "a1" highData 5).1.memory_store).getD
        []).length = 1 ∧
    entryGE (generate_memory_id highData, mkMemoryEntry highData 5)
      (generate_memory_id lowData, mkMemoryEntry lowData 0) := by
  have h := store_memory_capacity mmSmall "a1" highData 5
  refine ⟨h.2.1 (by decide), ?_⟩
  refine h.2.2 (generate_memory_id lowData, mkMemoryEntry lowData 0)
    (List.mem_cons_self _ _) ?_
    (generate_memory_id highData, mkMemoryEntry highData 5) (List.mem_singleton.mpr rfl)
  intro hmem
  have heq := List.mem_singleton.mp hmem
  have hid := congrArg Prod.fst heq
  exact absurd hid (by decide)

/-- Witness for C8 at the spec scenario `"1.0.0" → "1.0.1"`. -/
theorem increment_version_correct_witness :
    (splitOnDot (increment_version "1.0.0").data).dropLast =
      (splitOnDot ("1.0.0" : String).data).dropLast ∧
    verDotLt "1.0.0" (increment_version "1.0.0") := by
  have h := increment_version_correct.2 "1.0.0" (by unfold wellFormedVersion; decide)
  exact ⟨h.1, h.2.2⟩

/-- A manager reached by registering `analyze_data` with a grant to
`agent1`. -/
def tmGrantW : ToolManager := register_tool {} toolWithRequired (some "agent1")

/-- Witness for C10: in the reachable state granting `analyze_data` to
`agent1`, the granted name is a registered tool. -/
theorem tool_grants_never_dangle_witness :
    (List.lookup "analyze_data" tmGrantW.tools).isSome = true :=
  (tool_grants_never_dangle tmGrantW
    (ReachableTM.reg {} toolWithRequired (some "agent1") ReachableTM.init)).1
    "agent1" ["analyze_data"] rfl "analyze_data" (List.mem_singleton.mpr rfl)
